import Mathlib

/-!
Verification of the price-overlay pipeline of `src/app.py`.

The file embeds the two core functions of the app — `read_prices`
(spreadsheet → keyed price table) and `add_price_with_centered_text`
(band fill + three centered text lines) — together with the module-level
per-image loop and ZIP assembly, and proves the specified properties
about them.
-/

/-- A spreadsheet / dataframe cell: a string, an integer, or NaN
(pandas produces NaN e.g. when `.str.lower()` is applied to a
non-string value).  Values are kept verbatim, no numeric coercion. -/
inductive Cell where
  | str (s : String)
  | num (n : Int)
  | nan
deriving DecidableEq, Repr

/-- Python `str(v)` as used by the f-strings in
`add_price_with_centered_text`. -/
def Cell.pyStr : Cell → String
  | .str s => s
  | .num n => toString n
  | .nan => "nan"

/-- Python `str.lower()` (per-character case folding), used both on the
`"Назва"` column and on filename stems, so the join key is consistent. -/
def pyLower (s : String) : String := String.mk (s.toList.map Char.toLower)

/-- pandas `Series.str.lower` applied to one cell: lower-cases a string
cell, yields NaN on anything else. -/
def Cell.strLower : Cell → Cell
  | .str s => .str (pyLower s)
  | _ => .nan

/-- One value row of the price table: the three price fields read from
the columns `"Ліжечко"`, `"Мятник"`, `"Шухляда"` of the spreadsheet. -/
structure PriceRow where
  lizhechko : Cell
  miatnyk : Cell
  shukhliada : Cell
deriving DecidableEq, Repr

/-- The price table: a Python dict from (lower-cased) product key to its
three price fields, represented as an association list in insertion
order with unique keys. -/
abbrev Table := List (Cell × PriceRow)

/-- Python dict assignment `d[k] = v`: replaces the value in place when
the key is present, appends otherwise. -/
def dictInsert (k : Cell) (v : PriceRow) : Table → Table
  | [] => [(k, v)]
  | (k', v') :: rest =>
    if k' = k then (k, v) :: rest else (k', v') :: dictInsert k v rest

/-- Python dict lookup `d[k]` (as an `Option`). -/
def dictLookup (k : Cell) : Table → Option PriceRow
  | [] => none
  | (k', v) :: rest => if k' = k then some v else dictLookup k rest

/-- A pandas dataframe as produced by `pd.read_excel`: a list of column
names and a list of rows, each row giving the cell under a column
name. -/
structure DataFrame where
  columns : List String
  rows : List (String → Cell)

/-- The four required column names checked by `read_prices`. -/
def requiredColumns : List String := ["Назва", "Ліжечко", "Мятник", "Шухляда"]

/-- The value part of one dict entry built by the comprehension in
`read_prices`: the three price cells of the row, verbatim. -/
def rowToPriceRow (row : String → Cell) : PriceRow :=
  { lizhechko := row "Ліжечко", miatnyk := row "Мятник", shukhliada := row "Шухляда" }

/-- The dict comprehension of `read_prices`: fold the rows into a dict,
keyed by the lower-cased `"Назва"` cell (pandas iteration order, so a
later duplicate key overwrites the earlier value). -/
def buildTable (rows : List (String → Cell)) : Table :=
  rows.foldl (fun acc row => dictInsert (row "Назва").strLower (rowToPriceRow row) acc) []

/-- Function `read_prices` (src/app.py lines 16–36): check the four required
columns, raising `ValueError` naming the missing ones; otherwise
lower-case the key column and build the dict. -/
def read_prices (df : DataFrame) : Except String Table :=
  let missing := requiredColumns.filter (fun c => decide (c ∉ df.columns))
  if missing ≠ [] then
    .error ("В Excel-файлі відсутні необхідні стовпці: " ++ String.intercalate ", " missing)
  else
    .ok (buildTable df.rows)

/-- The module-level spreadsheet load handler (src/app.py lines
124–129): `st.session_state["prices"] = read_prices(...)` inside
`try`, so on `ValueError` the previous table is kept and the error is
shown. -/
def loadHandler (prev : Table) (df : DataFrame) : Table × Option String :=
  match read_prices df with
  | .ok t => (t, none)
  | .error e => (prev, some ("Помилка при обробці файлу: " ++ e))

/-- The last row of the list whose lower-cased `"Назва"` cell equals
`k`, if any. -/
def lastRowWithKey (k : Cell) : List (String → Cell) → Option (String → Cell)
  | [] => none
  | row :: rest =>
    match lastRowWithKey k rest with
    | some r => some r
    | none => if (row "Назва").strLower = k then some row else none

theorem dictLookup_dictInsert (k k' : Cell) (v : PriceRow) (t : Table) :
    dictLookup k (dictInsert k' v t) = if k' = k then some v else dictLookup k t := by
  induction t with
  | nil => simp [dictInsert, dictLookup]
  | cons hd tl ih =>
    obtain ⟨k'', v''⟩ := hd
    show dictLookup k (if k'' = k' then (k', v) :: tl else (k'', v'') :: dictInsert k' v tl) = _
    by_cases h1 : k'' = k'
    · rw [if_pos h1]
      by_cases h2 : k' = k
      · simp [dictLookup, h2]
      · have h3 : ¬k'' = k := by rw [h1]; exact h2
        simp [dictLookup, h2, h3]
    · rw [if_neg h1]
      show (if k'' = k then some v'' else dictLookup k (dictInsert k' v tl)) = _
      rw [ih]
      by_cases h2 : k'' = k
      · have h3 : ¬k' = k := fun hh => h1 (h2.trans hh.symm)
        simp [dictLookup, h2, h3]
      · simp [dictLookup, h2]

theorem mem_keys_dictInsert (a k : Cell) (v : PriceRow) (t : Table) :
    a ∈ (dictInsert k v t).map Prod.fst ↔ a ∈ t.map Prod.fst ∨ a = k := by
  induction t with
  | nil => simp [dictInsert]
  | cons hd tl ih =>
    obtain ⟨k', v'⟩ := hd
    by_cases h : k' = k
    · subst h
      simp [dictInsert]
      tauto
    · simp [dictInsert, h, ih]
      tauto

theorem nodup_keys_dictInsert (k : Cell) (v : PriceRow) (t : Table)
    (h : (t.map Prod.fst).Nodup) : ((dictInsert k v t).map Prod.fst).Nodup := by
  induction t with
  | nil => simp [dictInsert]
  | cons hd tl ih =>
    obtain ⟨k', v'⟩ := hd
    simp only [List.map_cons, List.nodup_cons] at h
    show (List.map Prod.fst
        (if k' = k then (k, v) :: tl else (k', v') :: dictInsert k v tl)).Nodup
    by_cases hk : k' = k
    · rw [if_pos hk]
      simp only [List.map_cons, List.nodup_cons]
      exact ⟨hk ▸ h.1, h.2⟩
    · rw [if_neg hk]
      simp only [List.map_cons, List.nodup_cons]
      refine ⟨?_, ih h.2⟩
      rw [mem_keys_dictInsert]
      rintro (hm | hm)
      · exact h.1 hm
      · exact hk hm

theorem buildTable_go_lookup (rows : List (String → Cell)) (acc : Table) (k : Cell) :
    dictLookup k (rows.foldl
        (fun acc row => dictInsert (row "Назва").strLower (rowToPriceRow row) acc) acc) =
      match lastRowWithKey k rows with
      | some r => some (rowToPriceRow r)
      | none => dictLookup k acc := by
  induction rows generalizing acc with
  | nil => simp [lastRowWithKey]
  | cons row rest ih =>
    simp only [List.foldl_cons, lastRowWithKey]
    rw [ih]
    cases lastRowWithKey k rest with
    | some r => rfl
    | none =>
      simp only [dictLookup_dictInsert]
      by_cases h : (row "Назва").strLower = k <;> simp [h]

theorem buildTable_go_nodup (rows : List (String → Cell)) (acc : Table)
    (h : (acc.map Prod.fst).Nodup) :
    ((rows.foldl
        (fun acc row => dictInsert (row "Назва").strLower (rowToPriceRow row) acc)
        acc).map Prod.fst).Nodup := by
  induction rows generalizing acc with
  | nil => exact h
  | cons row rest ih =>
    exact ih _ (nodup_keys_dictInsert _ _ _ h)

/-- Claim C1: for every spreadsheet source containing the four required
columns, `read_prices` succeeds with a mapping that has no duplicate
keys, where looking up any key yields exactly the three price cells of
the last row whose lower-cased `"Назва"` equals that key (verbatim, no
coercion), and a source with zero data rows yields the empty mapping. -/
theorem read_prices_valid_mapping (df : DataFrame)
    (h : ∀ c ∈ requiredColumns, c ∈ df.columns) :
    ∃ t, read_prices df = .ok t ∧
      (t.map Prod.fst).Nodup ∧
      (∀ k, dictLookup k t = (lastRowWithKey k df.rows).map rowToPriceRow) ∧
      (df.rows = [] → t = []) := by
  have hmiss : requiredColumns.filter (fun c => decide (c ∉ df.columns)) = [] := by
    rw [List.filter_eq_nil_iff]
    intro c hc
    simp [h c hc]
  refine ⟨buildTable df.rows, ?_, ?_, ?_, ?_⟩
  · simp only [read_prices]
    rw [hmiss]
    simp
  · exact buildTable_go_nodup df.rows [] (by simp)
  · intro k
    unfold buildTable
    rw [buildTable_go_lookup]
    cases lastRowWithKey k df.rows <;> simp [dictLookup]
  · intro hr
    simp [buildTable, hr]

/-- Witness for C1: a concrete one-row spreadsheet with all four columns. -/
theorem read_prices_valid_mapping_wit :
    ∃ t, read_prices
        ⟨["Назва", "Ліжечко", "Мятник", "Шухляда"],
         [fun c => if c = "Назва" then Cell.str "A" else Cell.num 7]⟩ = .ok t ∧
      (t.map Prod.fst).Nodup ∧
      (∀ k, dictLookup k t =
        (lastRowWithKey k [fun c => if c = "Назва" then Cell.str "A" else Cell.num 7]).map
          rowToPriceRow) ∧
      (([fun c => if c = "Назва" then Cell.str "A" else Cell.num 7] :
          List (String → Cell)) = [] → t = []) :=
  read_prices_valid_mapping
    ⟨["Назва", "Ліжечко", "Мятник", "Шухляда"],
     [fun c => if c = "Назва" then Cell.str "A" else Cell.num 7]⟩
    (by decide)

/-- Claim C2: a spreadsheet missing at least one required column makes
`read_prices` raise a `ValueError` naming exactly the missing columns,
with no table produced, and the load handler keeps the previous table. -/
theorem read_prices_missing_columns (df : DataFrame) (prev : Table)
    (h : ∃ c ∈ requiredColumns, c ∉ df.columns) :
    ∃ missing, missing ≠ [] ∧
      missing = requiredColumns.filter (fun c => decide (c ∉ df.columns)) ∧
      read_prices df =
        .error ("В Excel-файлі відсутні необхідні стовпці: " ++
          String.intercalate ", " missing) ∧
      (∀ t, read_prices df ≠ .ok t) ∧
      loadHandler prev df =
        (prev, some ("Помилка при обробці файлу: " ++
          ("В Excel-файлі відсутні необхідні стовпці: " ++
            String.intercalate ", " missing))) := by
  obtain ⟨c, hc, hcm⟩ := h
  have hne : requiredColumns.filter (fun c => decide (c ∉ df.columns)) ≠ [] := by
    intro he
    rw [List.filter_eq_nil_iff] at he
    have hcc := he c hc
    simp only [decide_eq_true_eq] at hcc
    exact hcc hcm
  refine ⟨_, hne, rfl, ?_, ?_, ?_⟩
  · simp only [read_prices]
    rw [if_pos hne]
  · intro t ht
    simp only [read_prices] at ht
    rw [if_pos hne] at ht
    exact Except.noConfusion ht
  · simp only [loadHandler, read_prices]
    rw [if_pos hne]

/-- Witness for C2: a concrete spreadsheet having only the key column. -/
theorem read_prices_missing_columns_wit :
    ∃ missing, missing ≠ [] ∧
      missing = requiredColumns.filter
        (fun c => decide (c ∉ (DataFrame.mk ["Назва"] []).columns)) ∧
      read_prices ⟨["Назва"], []⟩ =
        .error ("В Excel-файлі відсутні необхідні стовпці: " ++
          String.intercalate ", " missing) ∧
      (∀ t, read_prices ⟨["Назва"], []⟩ ≠ .ok t) ∧
      loadHandler [] ⟨["Назва"], []⟩ =
        ([], some ("Помилка при обробці файлу: " ++
          ("В Excel-файлі відсутні необхідні стовпці: " ++
            String.intercalate ", " missing))) :=
  read_prices_missing_columns ⟨["Назва"], []⟩ []
    ⟨"Ліжечко", by decide, by decide⟩

/-- An RGBA pixel value. -/
abbrev RGBA := Nat × Nat × Nat × Nat

/-- Opaque white, `(255, 255, 255, 255)`. -/
def white : RGBA := (255, 255, 255, 255)

/-- Color `fill=(0, 0, 0)` on an RGBA image: opaque black. -/
def black : RGBA := (0, 0, 0, 255)

/-- A raster image: dimensions plus pixel content, queried at
coordinates `(x, y)` with the origin at the top-left corner. -/
structure Img where
  width : Nat
  height : Nat
  pix : Nat → Nat → RGBA

theorem Img.ext_fields {a b : Img} (hw : a.width = b.width)
    (hh : a.height = b.height) (hp : a.pix = b.pix) : a = b := by
  cases a
  cases b
  dsimp at hw hh hp
  subst hw
  subst hh
  subst hp
  rfl

/-- A loaded font, abstractly: `textWidth t` is the rendered pixel
width of `t` (`textbbox` right minus left), and `covers t dx dy = true`
when drawing `t` puts ink on the pixel at offset `(dx, dy)` from the
anchor.  PIL's `draw.text` with the default top-left anchor renders
glyphs at or below and at or right of the anchor, so offsets are
natural numbers. -/
structure Font where
  textWidth : String → Nat
  covers : String → Nat → Nat → Bool

/-- The font environment: the outcome of
`ImageFont.truetype(FONT_PATH, FONT_SIZE)` (`none` when the font file
is absent or unreadable, i.e. `OSError`), and the font returned by
`ImageFont.load_default()`. -/
structure FontEnv where
  truetype : Option Font
  fallback : Font

/-- Call `ImageFont.truetype(FONT_PATH, FONT_SIZE)` as a fallible operation. -/
def tryLoadFont (env : FontEnv) : Except String Font :=
  match env.truetype with
  | some f => .ok f
  | none => .error "OSError"

/-- The `try/except OSError` font loading of src/app.py lines 62–65:
use the decorative font when it loads, the built-in default
otherwise. -/
def loadFont (env : FontEnv) : Font :=
  match tryLoadFont env with
  | .ok f => f
  | .error _ => env.fallback

/-- Whether drawing text `t` anchored at `(x, y)` puts ink on the
absolute pixel `(px, py)`. -/
abbrev textHits (font : Font) (t : String) (x y : Int) (px py : Nat) : Prop :=
  x ≤ (px : Int) ∧ y ≤ (py : Int) ∧
    font.covers t ((px : Int) - x).toNat ((py : Int) - y).toNat = true

/-- Operation `draw.text((x, y), t, font=font, fill=c)`: paint `c` on every
covered pixel, clipped to the canvas. -/
def drawText (img : Img) (font : Font) (t : String) (x y : Int) (c : RGBA) : Img :=
  { img with pix := fun px py =>
      if px < img.width ∧ py < img.height ∧ textHits font t x y px py
      then c else img.pix px py }

/-- Operation `draw.rectangle([(x0, y0), (x1, y1)], fill=c)`: both corners
inclusive, clipped to the canvas. -/
def drawRectangle (img : Img) (x0 y0 x1 y1 : Int) (c : RGBA) : Img :=
  { img with pix := fun px py =>
      if px < img.width ∧ py < img.height ∧
         x0 ≤ (px : Int) ∧ (px : Int) ≤ x1 ∧ y0 ≤ (py : Int) ∧ (py : Int) ≤ y1
      then c else img.pix px py }

/-- Index of the last `'.'` in a character list, if any. -/
def lastDotIdx : List Char → Option Nat
  | [] => none
  | c :: rest =>
    match lastDotIdx rest with
    | some i => some (i + 1)
    | none => if c = '.' then some 0 else none

/-- Python `os.path.splitext(name)[0]` for a plain file name: drop the suffix
from the last dot, unless every character before that dot is itself a
dot (leading dots do not start an extension). -/
def splitextRoot (s : String) : String :=
  match lastDotIdx s.toList with
  | none => s
  | some i =>
    if (s.toList.take i).all (fun c => c = '.') then s
    else String.mk (s.toList.take i)

/-- Python `os.path.splitext(file_name)[0].lower()`, the normalized join key
(src/app.py lines 50 and 144). -/
def fileKey (file_name : String) : String := pyLower (splitextRoot file_name)

/-- Line 1 text, `f"Ліжечко: {price_data['Ліжечко']} грн"`. -/
def line1 (pd : PriceRow) : String := "Ліжечко: " ++ pd.lizhechko.pyStr ++ " грн"

/-- Line 2 text, `f"З маятником: {price_data['Мятник']} грн"`. -/
def line2 (pd : PriceRow) : String := "З маятником: " ++ pd.miatnyk.pyStr ++ " грн"

/-- Line 3 text, `f"З шухлядою: {price_data['Шухляда']} грн"`. -/
def line3 (pd : PriceRow) : String := "З шухлядою: " ++ pd.shukhliada.pyStr ++ " грн"

/-- Centering `x_position = (width - text_width) // 2` (Python floor
division). -/
def centeredX (width : Nat) (font : Font) (t : String) : Int :=
  Int.fdiv ((width : Int) - (font.textWidth t : Int)) 2

/-- Function `add_price_with_centered_text` (src/app.py lines 47–85): when the
lower-cased stem of the file name is a key of the table, overwrite the
bottom 350-pixel band with opaque white and draw the three price lines
centered in it; otherwise return the image unchanged. -/
def add_price_with_centered_text (env : FontEnv) (image : Img) (prices : Table)
    (file_name : String) : Img :=
  match dictLookup (Cell.str (fileKey file_name)) prices with
  | none => image
  | some price_data =>
    let width := image.width
    let height := image.height
    let overlay_height : Int := 350
    let img1 := drawRectangle image 0 ((height : Int) - overlay_height)
      (width : Int) (height : Int) white
    let font := loadFont env
    let y_offset : Int := (height : Int) - overlay_height + 30
    let line_spacing : Int := 30
    let img2 := drawText img1 font (line1 price_data)
      (centeredX width font (line1 price_data)) y_offset black
    let img3 := drawText img2 font (line2 price_data)
      (centeredX width font (line2 price_data)) (y_offset + 65 + line_spacing) black
    drawText img3 font (line3 price_data)
      (centeredX width font (line3 price_data)) (y_offset + 130 + line_spacing * 2) black

/-- The color of a band pixel after annotation: the three text layers
over the white fill.  Depends only on the dimensions, the font and the
price row — not on the input image's pixels. -/
def bandPix (env : FontEnv) (width height : Nat) (pd : PriceRow) (px py : Nat) : RGBA :=
  let font := loadFont env
  let y_offset : Int := (height : Int) - 350 + 30
  if px < width ∧ py < height ∧
      textHits font (line3 pd) (centeredX width font (line3 pd)) (y_offset + 130 + 30 * 2) px py
  then black
  else if px < width ∧ py < height ∧
      textHits font (line2 pd) (centeredX width font (line2 pd)) (y_offset + 65 + 30) px py
  then black
  else if px < width ∧ py < height ∧
      textHits font (line1 pd) (centeredX width font (line1 pd)) y_offset px py
  then black
  else white

/-- A concrete font for witnesses: every string 10 pixels wide, no
ink anywhere. -/
def font0 : Font := { textWidth := fun _ => 10, covers := fun _ _ _ => false }

/-- A concrete font environment whose decorative font loads. -/
def fontEnv0 : FontEnv := { truetype := some font0, fallback := font0 }

/-- A concrete font environment whose decorative font is missing. -/
def fontEnvMissing : FontEnv := { truetype := none, fallback := font0 }

/-- A concrete 100×400 test image. -/
def imgA : Img := { width := 100, height := 400, pix := fun _ _ => (1, 2, 3, 255) }

/-- A second 100×400 test image with different pixel content. -/
def imgB : Img := { width := 100, height := 400, pix := fun _ _ => (9, 9, 9, 255) }

/-- A concrete price row for witnesses. -/
def row0 : PriceRow := ⟨Cell.num 1000, Cell.num 1200, Cell.num 1500⟩

/-- A concrete price table with the single key `"crib-a"`. -/
def table0 : Table := [(Cell.str "crib-a", row0)]

theorem annotate_width (env : FontEnv) (image : Img) (prices : Table)
    (file_name : String) :
    (add_price_with_centered_text env image prices file_name).width = image.width := by
  cases hlk : dictLookup (Cell.str (fileKey file_name)) prices with
  | none => simp [add_price_with_centered_text, hlk]
  | some pd => simp [add_price_with_centered_text, hlk, drawText, drawRectangle]

theorem annotate_height (env : FontEnv) (image : Img) (prices : Table)
    (file_name : String) :
    (add_price_with_centered_text env image prices file_name).height = image.height := by
  cases hlk : dictLookup (Cell.str (fileKey file_name)) prices with
  | none => simp [add_price_with_centered_text, hlk]
  | some pd => simp [add_price_with_centered_text, hlk, drawText, drawRectangle]

theorem annotate_pix_outside (env : FontEnv) (image : Img) (prices : Table)
    (file_name : String) (px py : Nat)
    (h : ¬(px < image.width ∧ py < image.height ∧
        (image.height : Int) - 350 ≤ (py : Int))) :
    (add_price_with_centered_text env image prices file_name).pix px py =
      image.pix px py := by
  cases hlk : dictLookup (Cell.str (fileKey file_name)) prices with
  | none => simp [add_price_with_centered_text, hlk]
  | some pd =>
    simp only [add_price_with_centered_text, hlk, drawText, drawRectangle]
    split_ifs with h1 h2 h3 h4
    · obtain ⟨ha, hb, hc, hd, -⟩ := h1
      exact absurd ⟨ha, hb, by omega⟩ h
    · obtain ⟨ha, hb, hc, hd, -⟩ := h2
      exact absurd ⟨ha, hb, by omega⟩ h
    · obtain ⟨ha, hb, hc, hd, -⟩ := h3
      exact absurd ⟨ha, hb, by omega⟩ h
    · obtain ⟨ha, hb, -, -, he, -⟩ := h4
      exact absurd ⟨ha, hb, he⟩ h
    · rfl

theorem annotate_pix_in_band (env : FontEnv) (image : Img) (prices : Table)
    (file_name : String) (pd : PriceRow)
    (hlk : dictLookup (Cell.str (fileKey file_name)) prices = some pd)
    (px py : Nat) (hx : px < image.width) (hy : py < image.height)
    (hband : (image.height : Int) - 350 ≤ (py : Int)) :
    (add_price_with_centered_text env image prices file_name).pix px py =
      bandPix env image.width image.height pd px py := by
  simp only [add_price_with_centered_text, hlk, drawText, drawRectangle, bandPix]
  split_ifs with h1 h2 h3 h4
  · rfl
  · rfl
  · rfl
  · rfl
  · exact absurd ⟨hx, hy, by omega, by omega, hband, by omega⟩ h4

/-- Claim C3: when the image's normalized key (lower-cased filename
stem) is absent from the table, `add_price_with_centered_text` returns
the image unchanged. -/
theorem annotate_key_absent_identity (env : FontEnv) (image : Img) (prices : Table)
    (file_name : String)
    (h : dictLookup (Cell.str (fileKey file_name)) prices = none) :
    add_price_with_centered_text env image prices file_name = image := by
  simp [add_price_with_centered_text, h]

/-- Witness for C3: the empty table on a concrete image. -/
theorem annotate_key_absent_identity_wit :
    dictLookup (Cell.str (fileKey "Crib-A.png")) [] = none ∧
    add_price_with_centered_text fontEnv0 imgA [] "Crib-A.png" = imgA :=
  ⟨rfl, annotate_key_absent_identity fontEnv0 imgA [] "Crib-A.png" rfl⟩

/-- Claim C4: `add_price_with_centered_text` preserves the image
dimensions and never modifies a pixel strictly above row
`height - 350`, whether or not the key is present. -/
theorem annotate_above_band_unchanged (env : FontEnv) (image : Img) (prices : Table)
    (file_name : String) (x y : Nat)
    (h : (y : Int) < (image.height : Int) - 350) :
    (add_price_with_centered_text env image prices file_name).width = image.width ∧
    (add_price_with_centered_text env image prices file_name).height = image.height ∧
    (add_price_with_centered_text env image prices file_name).pix x y = image.pix x y :=
  ⟨annotate_width env image prices file_name,
   annotate_height env image prices file_name,
   annotate_pix_outside env image prices file_name x y (by
     rintro ⟨-, -, hband⟩
     omega)⟩

/-- Witness for C4: a pixel above the band of a concrete annotated
image. -/
theorem annotate_above_band_unchanged_wit :
    ((5 : Nat) : Int) < ((imgA.height : Nat) : Int) - 350 ∧
    ((add_price_with_centered_text fontEnv0 imgA table0 "Crib-A.png").width = imgA.width ∧
     (add_price_with_centered_text fontEnv0 imgA table0 "Crib-A.png").height = imgA.height ∧
     (add_price_with_centered_text fontEnv0 imgA table0 "Crib-A.png").pix 7 5 = imgA.pix 7 5) :=
  ⟨by decide, annotate_above_band_unchanged fontEnv0 imgA table0 "Crib-A.png" 7 5 (by decide)⟩

/-- Claim C5: with the key present, every band pixel not covered by any
of the three text draws is opaque white — a hard overwrite — so band
background pixels do not depend on the input image's pixel content:
two same-sized images agree there after annotation. -/
theorem annotate_band_white_independent (env : FontEnv) (imageA imageB : Img)
    (prices : Table) (file_name : String) (pd : PriceRow) (px py : Nat)
    (hlk : dictLookup (Cell.str (fileKey file_name)) prices = some pd)
    (hwdim : imageB.width = imageA.width) (hhdim : imageB.height = imageA.height)
    (hx : px < imageA.width) (hy : py < imageA.height)
    (hband : (imageA.height : Int) - 350 ≤ (py : Int))
    (hnc1 : ¬textHits (loadFont env) (line1 pd)
        (centeredX imageA.width (loadFont env) (line1 pd))
        ((imageA.height : Int) - 350 + 30) px py)
    (hnc2 : ¬textHits (loadFont env) (line2 pd)
        (centeredX imageA.width (loadFont env) (line2 pd))
        ((imageA.height : Int) - 350 + 30 + 65 + 30) px py)
    (hnc3 : ¬textHits (loadFont env) (line3 pd)
        (centeredX imageA.width (loadFont env) (line3 pd))
        ((imageA.height : Int) - 350 + 30 + 130 + 30 * 2) px py) :
    (add_price_with_centered_text env imageA prices file_name).pix px py = white ∧
    (add_price_with_centered_text env imageA prices file_name).pix px py =
      (add_price_with_centered_text env imageB prices file_name).pix px py := by
  have hA := annotate_pix_in_band env imageA prices file_name pd hlk px py hx hy hband
  have hB := annotate_pix_in_band env imageB prices file_name pd hlk px py
    (by omega) (by omega) (by rw [hhdim]; exact hband)
  have hwhite : bandPix env imageA.width imageA.height pd px py = white := by
    simp only [bandPix]
    split_ifs with h1 h2 h3
    · exact absurd h1.2.2 hnc3
    · exact absurd h2.2.2 hnc2
    · exact absurd h3.2.2 hnc1
    · rfl
  have hBA : bandPix env imageB.width imageB.height pd px py =
      bandPix env imageA.width imageA.height pd px py := by
    rw [hwdim, hhdim]
  exact ⟨hA.trans hwhite, hA.trans ((hB.trans hBA).symm)⟩

/-- Witness for C5: two concrete same-sized images, a band pixel the
(inkless) witness font leaves uncovered. -/
theorem annotate_band_white_independent_wit :
    (add_price_with_centered_text fontEnv0 imgA table0 "Crib-A.png").pix 7 399 = white ∧
    (add_price_with_centered_text fontEnv0 imgA table0 "Crib-A.png").pix 7 399 =
      (add_price_with_centered_text fontEnv0 imgB table0 "Crib-A.png").pix 7 399 :=
  annotate_band_white_independent fontEnv0 imgA imgB table0 "Crib-A.png" row0 7 399
    (by decide) (by decide) (by decide) (by decide) (by decide) (by decide)
    (by decide) (by decide) (by decide)

/-- Spec-side description of the rendering when the key is present: a
hard opaque-white overwrite of the full-width bottom band of height
350, then exactly three lines of black text, each a fixed caption plus
one price field plus the currency suffix, each horizontally centered
at `(width - rendered_text_width) // 2`, line 1 starting at
`height - 350 + 30`, line 2 starting `65 + 30` below line 1's start,
line 3 starting a further `130 + 60` below line 1's start. -/
def specThreeCenteredLines (font : Font) (image : Img) (pd : PriceRow) : Img :=
  let width := image.width
  let height := image.height
  let band := drawRectangle image 0 ((height : Int) - 350) (width : Int) (height : Int) white
  let y1 : Int := (height : Int) - 350 + 30
  let r1 := drawText band font (line1 pd) (centeredX width font (line1 pd)) y1 black
  let r2 := drawText r1 font (line2 pd) (centeredX width font (line2 pd))
    (y1 + (65 + 30)) black
  drawText r2 font (line3 pd) (centeredX width font (line3 pd)) (y1 + (130 + 60)) black

/-- Claim C6: with the key present, the annotation is exactly the
spec-described three centered black text lines over the white band,
with line 1 at `height - 350 + 30`, line 2 `65 + 30` below it, and
line 3 a further `130 + 60` below line 1's start. -/
theorem annotate_three_centered_lines (env : FontEnv) (image : Img) (prices : Table)
    (file_name : String) (pd : PriceRow)
    (hlk : dictLookup (Cell.str (fileKey file_name)) prices = some pd) :
    add_price_with_centered_text env image prices file_name =
      specThreeCenteredLines (loadFont env) image pd := by
  have h2 : ((image.height : Int) - 350 + 30) + 65 + 30
      = ((image.height : Int) - 350 + 30) + (65 + 30) := by ring
  have h3 : ((image.height : Int) - 350 + 30) + 130 + 30 * 2
      = ((image.height : Int) - 350 + 30) + (130 + 60) := by ring
  simp only [add_price_with_centered_text, hlk, specThreeCenteredLines, h2, h3]

/-- Witness for C6: the concrete table, image and file name. -/
theorem annotate_three_centered_lines_wit :
    dictLookup (Cell.str (fileKey "Crib-A.png")) table0 = some row0 ∧
    add_price_with_centered_text fontEnv0 imgA table0 "Crib-A.png" =
      specThreeCenteredLines (loadFont fontEnv0) imgA row0 :=
  ⟨by decide,
   annotate_three_centered_lines fontEnv0 imgA table0 "Crib-A.png" row0 (by decide)⟩

/-- Claim C7: when the decorative font resource cannot be loaded,
`tryLoadFont` fails with `OSError`, the `try/except` recovers to the
built-in default font, and annotation completes exactly as it would
with that default font — a missing font is never surfaced as an
error. -/
theorem annotate_font_fallback (env : FontEnv) (h : env.truetype = none) :
    tryLoadFont env = .error "OSError" ∧
    loadFont env = env.fallback ∧
    ∀ (image : Img) (prices : Table) (file_name : String),
      add_price_with_centered_text env image prices file_name =
        add_price_with_centered_text ⟨some env.fallback, env.fallback⟩
          image prices file_name := by
  have ht : tryLoadFont env = .error "OSError" := by simp [tryLoadFont, h]
  have hl : loadFont env = env.fallback := by simp [loadFont, ht]
  refine ⟨ht, hl, ?_⟩
  intro image prices file_name
  cases hlk : dictLookup (Cell.str (fileKey file_name)) prices with
  | none => simp [add_price_with_centered_text, hlk]
  | some pd =>
    simp only [add_price_with_centered_text, hlk]
    rw [hl, show loadFont ⟨some env.fallback, env.fallback⟩ = env.fallback from rfl]

/-- Witness for C7: the concrete environment with a missing font. -/
theorem annotate_font_fallback_wit :
    fontEnvMissing.truetype = none ∧
    (tryLoadFont fontEnvMissing = .error "OSError" ∧
     loadFont fontEnvMissing = fontEnvMissing.fallback ∧
     ∀ (image : Img) (prices : Table) (file_name : String),
       add_price_with_centered_text fontEnvMissing image prices file_name =
         add_price_with_centered_text ⟨some fontEnvMissing.fallback, fontEnvMissing.fallback⟩
           image prices file_name) :=
  ⟨rfl, annotate_font_fallback fontEnvMissing rfl⟩

/-- Claim C8: with font availability fixed, annotation is idempotent:
annotating an already-annotated image yields the same result as
annotating once, since the band is always fully overwritten and
pixels above the band are untouched.  (Determinism is definitional in
this embedding: `add_price_with_centered_text` is a pure function of
`(env, image, prices, file_name)`.) -/
theorem annotate_idempotent (env : FontEnv) (image : Img) (prices : Table)
    (file_name : String) :
    add_price_with_centered_text env
        (add_price_with_centered_text env image prices file_name) prices file_name =
      add_price_with_centered_text env image prices file_name := by
  cases hlk : dictLookup (Cell.str (fileKey file_name)) prices with
  | none => simp [add_price_with_centered_text, hlk]
  | some pd =>
    have hw := annotate_width env image prices file_name
    have hh := annotate_height env image prices file_name
    refine Img.ext_fields
      (annotate_width env
        (add_price_with_centered_text env image prices file_name) prices file_name)
      (annotate_height env
        (add_price_with_centered_text env image prices file_name) prices file_name) ?_
    funext px py
    by_cases hin : px < image.width ∧ py < image.height ∧
        (image.height : Int) - 350 ≤ (py : Int)
    · obtain ⟨hx, hy, hband⟩ := hin
      rw [annotate_pix_in_band env
            (add_price_with_centered_text env image prices file_name) prices file_name pd
            hlk px py (by rw [hw]; exact hx) (by rw [hh]; exact hy)
            (by rw [hh]; exact hband),
          annotate_pix_in_band env image prices file_name pd hlk px py hx hy hband,
          hw, hh]
    · rw [annotate_pix_outside env
            (add_price_with_centered_text env image prices file_name) prices file_name
            px py (by rw [hw, hh]; exact hin),
          annotate_pix_outside env image prices file_name px py hin]

/-- Widget `streamlit.text_input` with no pending user edit: the widget
displays and returns the string form of the stored value (the three
`col.text_input` calls of src/app.py lines 148–156 write it back). -/
def textInputCell (v : Cell) : Cell := .str v.pyStr

/-- The net effect of the three `text_input` reassignments on one
price row: each field becomes its own string form. -/
def stringifyRow (pd : PriceRow) : PriceRow :=
  ⟨textInputCell pd.lizhechko, textInputCell pd.miatnyk, textInputCell pd.shukhliada⟩

/-- Python `s.endswith(suffix)`. -/
def endsWithPy (s suffix : String) : Bool :=
  decide (suffix.toList.length ≤ s.toList.length) &&
    decide (s.toList.drop (s.toList.length - suffix.toList.length) = suffix.toList)

/-- The filter of the image loop (src/app.py line 141):
`file_name.endswith(".png") or file_name.endswith(".jpg")`. -/
def isImageFile (s : String) : Bool := endsWithPy s ".png" || endsWithPy s ".jpg"

/-- An in-memory PNG-encoded buffer, identified by the image it
encodes (`processed_image.save(buf, format="PNG")`). -/
structure PNGData where
  content : Img

/-- PNG serialization of an annotated image. -/
def pngEncode (image : Img) : PNGData := ⟨image⟩

/-- The per-image loop of src/app.py lines 140–163: for each listed
`.png`/`.jpg` file, reassign the three price fields of
`prices[file_key]` through `text_input` — an unconditional dict index
that raises `KeyError` when the key is absent — then annotate the
image with the updated table and record the PNG bytes under the
original file name.  Returns the final table and the processed
files. -/
def processLoop (env : FontEnv) (imgOf : String → Img) (files : List String)
    (prices : Table) : Except String (Table × List (String × PNGData)) :=
  match files with
  | [] => .ok (prices, [])
  | f :: fs =>
    if isImageFile f then
      match dictLookup (Cell.str (fileKey f)) prices with
      | none => .error ("KeyError: " ++ fileKey f)
      | some pd =>
        let pricesNext := dictInsert (Cell.str (fileKey f)) (stringifyRow pd) prices
        let processed := add_price_with_centered_text env (imgOf f) pricesNext f
        match processLoop env imgOf fs pricesNext with
        | .error e => .error e
        | .ok (pfin, rest) => .ok (pfin, (f, pngEncode processed) :: rest)
    else processLoop env imgOf fs prices

/-- The ZIP assembly of src/app.py lines 178–184: offered only when at
least one file was processed; one entry per processed file, named
after the original file name, holding its PNG bytes. -/
def zipResult (entries : List (String × PNGData)) : Option (List (String × PNGData)) :=
  if entries.isEmpty then none else some entries

/-- Table `cur` agrees with `base` except that stored rows may have
been passed through `text_input` (stringified). -/
def tablesEquiv (base cur : Table) : Prop :=
  ∀ k, dictLookup k cur = dictLookup k base ∨
       dictLookup k cur = (dictLookup k base).map stringifyRow

theorem tablesEquiv_refl (t : Table) : tablesEquiv t t := fun _ => Or.inl rfl

theorem stringifyRow_idem (pd : PriceRow) :
    stringifyRow (stringifyRow pd) = stringifyRow pd := rfl

theorem line1_stringifyRow (pd : PriceRow) : line1 (stringifyRow pd) = line1 pd := rfl

theorem line2_stringifyRow (pd : PriceRow) : line2 (stringifyRow pd) = line2 pd := rfl

theorem line3_stringifyRow (pd : PriceRow) : line3 (stringifyRow pd) = line3 pd := rfl

/-- Annotation only reads the looked-up row through the three line
texts, which are unchanged by stringification, so a stringified table
annotates identically. -/
theorem annotate_stringify (env : FontEnv) (image : Img) (file_name : String)
    (base cur : Table) (he : tablesEquiv base cur) :
    add_price_with_centered_text env image cur file_name =
      add_price_with_centered_text env image base file_name := by
  rcases he (Cell.str (fileKey file_name)) with h | h
  · simp only [add_price_with_centered_text, h]
  · cases hlk : dictLookup (Cell.str (fileKey file_name)) base with
    | none =>
      rw [hlk] at h
      simp only [add_price_with_centered_text, h, hlk, Option.map_none']
    | some pd =>
      rw [hlk] at h
      simp only [Option.map_some'] at h
      simp only [add_price_with_centered_text, h, hlk,
        line1_stringifyRow, line2_stringifyRow, line3_stringifyRow]

theorem tablesEquiv_insert (base cur : Table) (he : tablesEquiv base cur)
    (k : Cell) (pd : PriceRow) (hpd : dictLookup k cur = some pd) :
    tablesEquiv base (dictInsert k (stringifyRow pd) cur) := by
  intro a
  rw [dictLookup_dictInsert]
  by_cases hk : k = a
  · subst hk
    rw [if_pos rfl]
    right
    rcases he k with h | h
    · rw [← h, hpd]
      rfl
    · rw [hpd] at h
      cases hlkb : dictLookup k base with
      | none => rw [hlkb] at h; cases h
      | some q =>
        rw [hlkb] at h
        simp only [Option.map_some'] at h
        obtain rfl : pd = stringifyRow q := by injection h
        simp [Option.map_some', stringifyRow_idem]
  · rw [if_neg hk]
    exact he a

theorem processLoop_all_keys (env : FontEnv) (imgOf : String → Img)
    (files : List String) (prices : Table) (cur : Table)
    (he : tablesEquiv prices cur)
    (hkeys : ∀ f ∈ files, isImageFile f = true →
      (dictLookup (Cell.str (fileKey f)) prices).isSome = true) :
    ∃ pfin entries, processLoop env imgOf files cur = .ok (pfin, entries) ∧
      entries.map Prod.fst = List.filter isImageFile files ∧
      ∀ p ∈ entries, p.2 =
        pngEncode (add_price_with_centered_text env (imgOf p.1) prices p.1) := by
  revert he hkeys
  induction files generalizing cur with
  | nil =>
    intro he hkeys
    exact ⟨cur, [], rfl, rfl, by simp⟩
  | cons g gs ih =>
    intro he hkeys
    by_cases hg : isImageFile g = true
    · have hkg := hkeys g (List.mem_cons_self g gs) hg
      cases hlkp : dictLookup (Cell.str (fileKey g)) prices with
      | none => rw [hlkp] at hkg; cases hkg
      | some pd0 =>
        have hcur : ∃ pdc, dictLookup (Cell.str (fileKey g)) cur = some pdc := by
          rcases he (Cell.str (fileKey g)) with h | h
          · exact ⟨pd0, by rw [h, hlkp]⟩
          · exact ⟨stringifyRow pd0, by rw [h, hlkp]; rfl⟩
        obtain ⟨pdc, hpdc⟩ := hcur
        have he' : tablesEquiv prices
            (dictInsert (Cell.str (fileKey g)) (stringifyRow pdc) cur) :=
          tablesEquiv_insert prices cur he _ pdc hpdc
        obtain ⟨pfin, entries, hrun, hnames, hvals⟩ :=
          ih (dictInsert (Cell.str (fileKey g)) (stringifyRow pdc) cur) he'
            (fun f hf himg => hkeys f (List.mem_cons_of_mem g hf) himg)
        refine ⟨pfin,
          (g, pngEncode (add_price_with_centered_text env (imgOf g)
            (dictInsert (Cell.str (fileKey g)) (stringifyRow pdc) cur) g)) :: entries,
          ?_, ?_, ?_⟩
        · simp only [processLoop, hg, if_true, hpdc]
          rw [hrun]
        · simp only [List.map_cons, List.filter_cons, hg, if_true]
          rw [hnames]
        · intro p hp
          rcases List.mem_cons.mp hp with rfl | hp'
          · show pngEncode (add_price_with_centered_text env (imgOf g)
                (dictInsert (Cell.str (fileKey g)) (stringifyRow pdc) cur) g) =
              pngEncode (add_price_with_centered_text env (imgOf g) prices g)
            rw [annotate_stringify env (imgOf g) g prices
              (dictInsert (Cell.str (fileKey g)) (stringifyRow pdc) cur) he']
          · exact hvals p hp'
    · obtain ⟨pfin, entries, hrun, hnames, hvals⟩ :=
        ih cur he (fun f hf himg => hkeys f (List.mem_cons_of_mem g hf) himg)
      refine ⟨pfin, entries, ?_, ?_, hvals⟩
      · simp only [processLoop]
        rw [if_neg hg]
        exact hrun
      · simp only [List.filter_cons]
        rw [if_neg (by simp [hg]), hnames]

theorem processLoop_missing_key (env : FontEnv) (imgOf : String → Img)
    (files : List String) (prices : Table) (f : String) (hf : f ∈ files)
    (himg : isImageFile f = true)
    (hmiss : dictLookup (Cell.str (fileKey f)) prices = none) :
    ∃ msg, processLoop env imgOf files prices = .error msg := by
  revert hf hmiss
  induction files generalizing prices with
  | nil =>
    intro hf _
    cases hf
  | cons g gs ih =>
    intro hf hmiss
    rcases List.mem_cons.mp hf with rfl | hf'
    · exact ⟨"KeyError: " ++ fileKey f, by simp [processLoop, himg, hmiss]⟩
    · by_cases hg : isImageFile g = true
      · cases hlk : dictLookup (Cell.str (fileKey g)) prices with
        | none => exact ⟨"KeyError: " ++ fileKey g, by simp [processLoop, hg, hlk]⟩
        | some pd =>
          have hmiss' : dictLookup (Cell.str (fileKey f))
              (dictInsert (Cell.str (fileKey g)) (stringifyRow pd) prices) = none := by
            rw [dictLookup_dictInsert]
            by_cases hkey : Cell.str (fileKey g) = Cell.str (fileKey f)
            · rw [hkey] at hlk
              rw [hlk] at hmiss
              cases hmiss
            · rw [if_neg hkey]
              exact hmiss
          obtain ⟨msg, hmsg⟩ := ih _ hf' hmiss'
          refine ⟨msg, ?_⟩
          simp only [processLoop, hg, if_true, hlk]
          rw [hmsg]
      · obtain ⟨msg, hmsg⟩ := ih _ hf' hmiss
        refine ⟨msg, ?_⟩
        simp only [processLoop]
        rw [if_neg hg]
        exact hmsg

/-- Counterexample to C9 as stated: a batch of `N = 1` listed image
whose case-folded stem is not a key of the (empty) price table makes
the loop raise `KeyError`, so no ZIP archive with one entry is
produced. -/
theorem batch_zip_missing_key_cex :
    processLoop fontEnv0 (fun _ => imgA) ["a.png"] [] =
      .error ("KeyError: " ++ fileKey "a.png") := by
  rfl

/-- Claim C9 (amended): provided every listed `.png`/`.jpg` image's
case-folded stem is a key of the price table and at least one such
image is listed, the batch loop succeeds and the ZIP archive holds
exactly `N` entries — one named after each listed image file, in
order, each holding the PNG encoding of that image annotated with the
price table. -/
theorem batch_zip_entries (env : FontEnv) (imgOf : String → Img)
    (files : List String) (prices : Table)
    (hkeys : ∀ f ∈ files, isImageFile f = true →
      (dictLookup (Cell.str (fileKey f)) prices).isSome = true)
    (hne : List.filter isImageFile files ≠ []) :
    ∃ pfin entries, processLoop env imgOf files prices = .ok (pfin, entries) ∧
      entries.map Prod.fst = List.filter isImageFile files ∧
      entries.length = (List.filter isImageFile files).length ∧
      (∀ p ∈ entries, p.2 =
        pngEncode (add_price_with_centered_text env (imgOf p.1) prices p.1)) ∧
      zipResult entries = some entries := by
  obtain ⟨pfin, entries, hrun, hnames, hvals⟩ :=
    processLoop_all_keys env imgOf files prices prices (tablesEquiv_refl prices) hkeys
  refine ⟨pfin, entries, hrun, hnames, ?_, hvals, ?_⟩
  · rw [← hnames, List.length_map]
  · have hentne : entries ≠ [] := by
      intro h0
      rw [h0] at hnames
      exact hne hnames.symm
    simp [zipResult, hentne]

/-- Witness for the amended C9: a concrete directory listing with one
matching image and one non-image file. -/
theorem batch_zip_entries_wit :
    (∀ f ∈ ["Crib-A.png", "notes.txt"], isImageFile f = true →
      (dictLookup (Cell.str (fileKey f)) table0).isSome = true) ∧
    (List.filter isImageFile ["Crib-A.png", "notes.txt"] ≠ []) ∧
    (∃ pfin entries,
      processLoop fontEnv0 (fun _ => imgA) ["Crib-A.png", "notes.txt"] table0 =
        .ok (pfin, entries) ∧
      entries.map Prod.fst = List.filter isImageFile ["Crib-A.png", "notes.txt"] ∧
      entries.length = (List.filter isImageFile ["Crib-A.png", "notes.txt"]).length ∧
      (∀ p ∈ entries, p.2 =
        pngEncode (add_price_with_centered_text fontEnv0 imgA table0 p.1)) ∧
      zipResult entries = some entries) :=
  ⟨by decide, by decide,
   batch_zip_entries fontEnv0 (fun _ => imgA) ["Crib-A.png", "notes.txt"] table0
     (by decide) (by decide)⟩

/-- Claim C10: the per-image loop indexes `prices[file_key]` with no
membership check, so whenever some listed `.png`/`.jpg` file's
case-folded stem is not a key of the table, the loop raises `KeyError`
and never passes the image through unannotated — the batch pipeline
has the unstated precondition that every listed image's stem is a key
of the table. -/
theorem loop_unconditional_indexing (env : FontEnv) (imgOf : String → Img)
    (files : List String) (prices : Table)
    (h : ∃ f ∈ files, isImageFile f = true ∧
        dictLookup (Cell.str (fileKey f)) prices = none) :
    (∃ msg, processLoop env imgOf files prices = .error msg) ∧
    ∀ result, processLoop env imgOf files prices ≠ .ok result := by
  obtain ⟨f, hf, himg, hmiss⟩ := h
  obtain ⟨msg, hmsg⟩ := processLoop_missing_key env imgOf files prices f hf himg hmiss
  refine ⟨⟨msg, hmsg⟩, fun result hr => ?_⟩
  rw [hmsg] at hr
  cases hr

/-- Witness for C10: a listed image whose stem `"b"` is not a key of
the concrete table. -/
theorem loop_unconditional_indexing_wit :
    (∃ msg, processLoop fontEnv0 (fun _ => imgA) ["b.png"] table0 = .error msg) ∧
    ∀ result, processLoop fontEnv0 (fun _ => imgA) ["b.png"] table0 ≠ .ok result :=
  loop_unconditional_indexing fontEnv0 (fun _ => imgA) ["b.png"] table0
    ⟨"b.png", by decide, by decide, by decide⟩
